import Mathlib

/-!
Verification of the nimbus-encryption core against its specification.

The development shallowly embeds the Rust sources:
* `src/error.rs` — the `NimbusError` taxonomy;
* `src/utils/encoding.rs` — the `Encoder` trait, its `Base64` implementation,
  the generic `encode_with`/`decode_with` wrappers and the public
  `encode_base64`/`decode_base64` functions;
* `src/utils/random.rs` — the `SecureRandomSource` contract,
  `secure_random_bytes`/`secure_random_u64` and the nonce helpers;
* `src/crypto/crypto_trait.rs` — the `CryptoCipherTrait` AEAD contract.

Bytes are modelled as `Nat` values (with `< 256` stated where it matters),
`usize` as a 64-bit quantity, fallible Rust functions as `Except`-valued
Lean functions. External crates (`base64ct`, `rand::rngs::OsRng`) are not
part of the repository; where their behaviour decides a claim it is
modelled from the specification, and the corresponding definitions say so
in their doc comments.
-/

namespace Nimbus

/-- The error taxonomy of `src/error.rs` (`enum NimbusError`), one
constructor per Rust variant, in source order. -/
inductive NimbusError where
  | CryptographicFailure
  | AuthenticationFailed
  | KeyOperationFailed
  | InvalidInput
  | InvalidLength
  | RandomGenerationFailed
  | SystemError
  | WebAssemblyError
  deriving DecidableEq, Repr, Fintype

/-- The list of all `NimbusError` variants, in the order they are declared
in `src/error.rs`. -/
def nimbusErrorKinds : List NimbusError :=
  [.CryptographicFailure, .AuthenticationFailed, .KeyOperationFailed,
   .InvalidInput, .InvalidLength, .RandomGenerationFailed, .SystemError,
   .WebAssemblyError]

/-- The seven error kinds named by the specification (§4.1), written from
the spec's words so the code's taxonomy can be compared against it. -/
def specSevenErrorKinds : List NimbusError :=
  [.CryptographicFailure, .AuthenticationFailed, .KeyOperationFailed,
   .InvalidInput, .InvalidLength, .RandomGenerationFailed, .SystemError]

/-- The `Display` implementation of `src/error.rs`: the fixed description
string of each error kind. -/
def NimbusError.display : NimbusError → String
  | .CryptographicFailure => "Cryptographic operation failed"
  | .AuthenticationFailed => "Authentication verification failed"
  | .KeyOperationFailed => "Key operation failed"
  | .InvalidInput => "Invalid input provided"
  | .InvalidLength => "Invalid data length"
  | .RandomGenerationFailed => "Secure random generation failed"
  | .SystemError => "System operation failed"
  | .WebAssemblyError => "WebAssembly operation failed"

/-- `usize::MAX` on a 64-bit platform. -/
def USIZE_MAX : Nat := 2 ^ 64 - 1

/-- `BASE64_MAX_INPUT_SIZE = usize::MAX / 4` from `src/utils/encoding.rs`. -/
def BASE64_MAX_INPUT_SIZE : Nat := USIZE_MAX / 4

/-- Modelled from the spec: the RFC 4648 standard base64 alphabet used by
the external `base64ct` crate — character of a 6-bit value. -/
def b64AlphabetChar (v : Nat) : Char :=
  if v < 26 then Char.ofNat (65 + v)
  else if v < 52 then Char.ofNat (97 + (v - 26))
  else if v < 62 then Char.ofNat (48 + (v - 52))
  else if v = 62 then '+'
  else '/'

/-- Modelled from the spec: the inverse of the RFC 4648 standard base64
alphabet — 6-bit value of a character, `none` off the alphabet. -/
def b64CharValue (c : Char) : Option Nat :=
  if 65 ≤ c.toNat ∧ c.toNat ≤ 90 then some (c.toNat - 65)
  else if 97 ≤ c.toNat ∧ c.toNat ≤ 122 then some (c.toNat - 97 + 26)
  else if 48 ≤ c.toNat ∧ c.toNat ≤ 57 then some (c.toNat - 48 + 52)
  else if c = '+' then some 62
  else if c = '/' then some 63
  else none

/-- Modelled from the spec: base64 encoding of a byte sequence, three bytes
to four characters, `=`-padded final group (the behaviour of the external
`base64ct::Base64::encode_string`, "RFC 4648 standard alphabet with `=`
padding"). -/
def encodeGroups : List Nat → List Char
  | [] => []
  | [a] =>
      [b64AlphabetChar (a / 4), b64AlphabetChar (a % 4 * 16), '=', '=']
  | [a, b] =>
      [b64AlphabetChar (a / 4), b64AlphabetChar (a % 4 * 16 + b / 16),
       b64AlphabetChar (b % 16 * 4), '=']
  | a :: b :: c :: rest =>
      b64AlphabetChar (a / 4) :: b64AlphabetChar (a % 4 * 16 + b / 16) ::
      b64AlphabetChar (b % 16 * 4 + c / 64) :: b64AlphabetChar (c % 64) ::
      encodeGroups rest

/-- Modelled from the spec: strict decoding of a final base64 group of four
characters, allowing one or two `=` padding characters only at the end and
rejecting non-zero trailing bits (the external `base64ct` decoder is
strict). Also handles an unpadded full final group. -/
def decodeLastGroup (c1 c2 c3 c4 : Char) : Option (List Nat) :=
  match b64CharValue c1, b64CharValue c2 with
  | some v1, some v2 =>
    if c3 = '=' then
      if c4 = '=' then
        if v2 % 16 = 0 then some [v1 * 4 + v2 / 16] else none
      else none
    else
      match b64CharValue c3 with
      | some v3 =>
        if c4 = '=' then
          if v3 % 4 = 0 then
            some [v1 * 4 + v2 / 16, v2 % 16 * 16 + v3 / 4]
          else none
        else
          match b64CharValue c4 with
          | some v4 =>
              some [v1 * 4 + v2 / 16, v2 % 16 * 16 + v3 / 4,
                    v3 % 4 * 64 + v4]
          | none => none
      | none => none
  | _, _ => none

/-- Modelled from the spec: strict base64 decoding (the behaviour of the
external `base64ct::Base64::decode_vec`): groups of four characters, `=`
padding admitted only in the final group, any character outside the
alphabet, incorrect padding or invalid padding length rejected; the empty
string decodes to the empty byte sequence. -/
def decodeGroups : List Char → Option (List Nat)
  | [] => some []
  | c1 :: c2 :: c3 :: c4 :: rest =>
    if rest = [] then
      decodeLastGroup c1 c2 c3 c4
    else
      match b64CharValue c1, b64CharValue c2, b64CharValue c3,
            b64CharValue c4 with
      | some v1, some v2, some v3, some v4 =>
        match decodeGroups rest with
        | some bs =>
            some ((v1 * 4 + v2 / 16) :: (v2 % 16 * 16 + v3 / 4) ::
                  (v3 % 4 * 64 + v4) :: bs)
        | none => none
      | _, _, _, _ => none
  | _ => none

/-- Modelled from the spec: `base64ct::Base64::encode_string` as a total
function to a Lean `String`. -/
def Base64.encode_string (data : List Nat) : String :=
  String.mk (encodeGroups data)

/-- Modelled from the spec: `base64ct::Base64::decode_vec`, `none` standing
for the `base64ct` error values. -/
def Base64.decode_vec (s : String) : Option (List Nat) :=
  decodeGroups s.data

/-- `Encoder::max_input_size` of the `impl Encoder for Base64`
(`src/utils/encoding.rs`, lines 40–42). -/
def Base64.max_input_size : Nat := BASE64_MAX_INPUT_SIZE

/-- `Encoder::encode` of the `impl Encoder for Base64`
(`src/utils/encoding.rs`, lines 29–34): oversized input fails with
`InvalidLength`, otherwise the `base64ct` encoding is returned. -/
def Base64.encode (data : List Nat) : Except NimbusError String :=
  if data.length > Base64.max_input_size then .error .InvalidLength
  else .ok (Base64.encode_string data)

/-- `Encoder::decode` of the `impl Encoder for Base64`
(`src/utils/encoding.rs`, lines 36–38): any `base64ct` decoding error is
mapped to `InvalidInput`. -/
def Base64.decode (s : String) : Except NimbusError (List Nat) :=
  match Base64.decode_vec s with
  | some v => .ok v
  | none => .error .InvalidInput

/-- The `Encoder` trait of `src/utils/encoding.rs` as a record: an encoder
with error type `ε`. -/
structure Encoder (ε : Type) where
  encode : List Nat → Except ε String
  decode : String → Except ε (List Nat)
  max_input_size : Nat

/-- The `Base64` encoder instance packaged as an `Encoder` record. -/
def base64Encoder : Encoder NimbusError :=
  { encode := Base64.encode
    decode := Base64.decode
    max_input_size := Base64.max_input_size }

/-- `encode_with` of `src/utils/encoding.rs` (lines 45–47): every error of
the underlying encoder is remapped to `InvalidInput`. -/
def encode_with {ε : Type} (E : Encoder ε) (data : List Nat) :
    Except NimbusError String :=
  match E.encode data with
  | .ok s => .ok s
  | .error _ => .error .InvalidInput

/-- `decode_with` of `src/utils/encoding.rs` (lines 49–51): every error of
the underlying encoder is remapped to `InvalidInput`. -/
def decode_with {ε : Type} (E : Encoder ε) (data : String) :
    Except NimbusError (List Nat) :=
  match E.decode data with
  | .ok v => .ok v
  | .error _ => .error .InvalidInput

/-- The public `encode_base64` of `src/utils/encoding.rs` (lines 59–61). -/
def encode_base64 (data : List Nat) : Except NimbusError String :=
  encode_with base64Encoder data

/-- The public `decode_base64` of `src/utils/encoding.rs` (lines 69–71). -/
def decode_base64 (data : String) : Except NimbusError (List Nat) :=
  decode_with base64Encoder data

/-- The base64 output length for `n` input bytes: `n * 4 / 3` rounded up to
a whole four-character group, `4 * ceil(n / 3)`. -/
def base64_encoded_len (n : Nat) : Nat := 4 * ((n + 2) / 3)

/-- The bytes of `"Hello, World!"`. -/
def helloWorldBytes : List Nat :=
  [72, 101, 108, 108, 111, 44, 32, 87, 111, 114, 108, 100, 33]

/-- `NONCE_96_BIT_SIZE = 12` from `src/utils/random.rs`. -/
def NONCE_96_BIT_SIZE : Nat := 12

/-- `NONCE_192_BIT_SIZE = 24` from `src/utils/random.rs`. -/
def NONCE_192_BIT_SIZE : Nat := 24

/-- The `SecureRandomSource` trait of `src/utils/random.rs` as a record:
`σ` is the generator's state (Rust's `&mut self`), `ε` its associated
`Error` type. `try_fill_bytes` receives the buffer contents and returns the
filled buffer; `fill_preserves_length` records what Rust's `&mut [u8]`
argument guarantees by type — filling a slice cannot change its length. -/
structure SecureRandomSource (σ ε : Type) where
  try_fill_bytes : σ → List Nat → Except ε (List Nat × σ)
  try_next_u64 : σ → Except ε (Nat × σ)
  fill_preserves_length :
    ∀ s buf out s₂, try_fill_bytes s buf = .ok (out, s₂) →
      out.length = buf.length

/-- `secure_random_bytes` of `src/utils/random.rs` (lines 43–51): allocate
a zeroed buffer of `byte_count` bytes, fill it from the source, mapping any
source error to `RandomGenerationFailed`. -/
def secure_random_bytes {σ ε : Type} (R : SecureRandomSource σ ε) (s : σ)
    (byte_count : Nat) : Except NimbusError (List Nat × σ) :=
  match R.try_fill_bytes s (List.replicate byte_count 0) with
  | .ok (buf, s₂) => .ok (buf, s₂)
  | .error _ => .error .RandomGenerationFailed

/-- `secure_random_u64` of `src/utils/random.rs` (lines 53–56): draw a
`u64` from the source, mapping any source error to
`RandomGenerationFailed`. -/
def secure_random_u64 {σ ε : Type} (R : SecureRandomSource σ ε) (s : σ) :
    Except NimbusError (Nat × σ) :=
  match R.try_next_u64 s with
  | .ok v => .ok v
  | .error _ => .error .RandomGenerationFailed

/-- `generate_nonce` of `src/utils/random.rs` (lines 58–61). The Rust code
constructs an `OsRng` — the operating system's entropy source, external to
the repository — so the source is taken here as an explicit parameter. -/
def generate_nonce {σ ε : Type} (R : SecureRandomSource σ ε) (s : σ)
    (byte_count : Nat) : Except NimbusError (List Nat × σ) :=
  secure_random_bytes R s byte_count

/-- `generate_aes_gcm_nonce` of `src/utils/random.rs` (lines 69–71). -/
def generate_aes_gcm_nonce {σ ε : Type} (R : SecureRandomSource σ ε)
    (s : σ) : Except NimbusError (List Nat × σ) :=
  generate_nonce R s NONCE_96_BIT_SIZE

/-- `generate_extended_nonce` of `src/utils/random.rs` (lines 79–81). -/
def generate_extended_nonce {σ ε : Type} (R : SecureRandomSource σ ε)
    (s : σ) : Except NimbusError (List Nat × σ) :=
  generate_nonce R s NONCE_192_BIT_SIZE

/-- `generate_random_u64` of `src/utils/random.rs` (lines 89–92), with the
`OsRng` source as an explicit parameter as in `generate_nonce`. -/
def generate_random_u64 {σ ε : Type} (R : SecureRandomSource σ ε) (s : σ) :
    Except NimbusError (Nat × σ) :=
  secure_random_u64 R s

/-- The `MockRandomSource` of the `src/utils/random.rs` tests in its
success configuration: filling returns the buffer unchanged, `next_u64`
returns 42. -/
def mockRandomSuccess : SecureRandomSource Unit Unit :=
  { try_fill_bytes := fun s buf => .ok (buf, s)
    try_next_u64 := fun _ => .ok (42, ())
    fill_preserves_length := by
      intro s buf out s₂ h
      cases h
      rfl }

/-- The `MockRandomSource` of the `src/utils/random.rs` tests in its
failing configuration: both operations fail. -/
def mockRandomFailure : SecureRandomSource Unit Unit :=
  { try_fill_bytes := fun _ _ => .error ()
    try_next_u64 := fun _ => .error ()
    fill_preserves_length := by
      intro s buf out s₂ h
      cases h }

/-- The `CryptoCipherTrait` of `src/crypto/crypto_trait.rs` as a record:
one value per conforming cipher variant, with its associated `Key` and
`Nonce` types, size constants, byte-array constructors and the AEAD
encrypt/decrypt pair. The trait's `generate_key`/`generate_nonce`
operations draw from the external OS entropy source and are modelled
separately by the `src/utils/random.rs` functions above. -/
structure CryptoCipherTrait where
  Key : Type
  Nonce : Type
  KEY_SIZE : Nat
  NONCE_SIZE : Nat
  get_key_from_u8_array : List Nat → Except NimbusError Key
  get_nonce_from_u8_array : List Nat → Except NimbusError Nonce
  encrypt : Key → Nonce → List Nat → List Nat → Except NimbusError (List Nat)
  decrypt : Key → Nonce → List Nat → List Nat → Except NimbusError (List Nat)

/-- Modelled from the spec: a deterministic keystream byte, a pure function
of key, nonce and position, standing in for the cipher engine's stream
(§4.4: encryption "must be deterministic given identical inputs"). -/
def modelKeystream (key nonce : List Nat) (i : Nat) : Nat :=
  (key.foldl (fun acc b => acc * 131 + b) 7 +
   nonce.foldl (fun acc b => acc * 131 + b) 11 + i * 2654435761) % 256

/-- Modelled from the spec: XOR of a byte sequence with the keystream
starting at position `i` (its own involution, as stream-cipher encryption
and decryption coincide). -/
def xorKeystream (key nonce : List Nat) : Nat → List Nat → List Nat
  | _, [] => []
  | i, b :: rest =>
      (b ^^^ modelKeystream key nonce i) :: xorKeystream key nonce (i + 1) rest

/-- The fixed authentication-tag size of the model cipher, 16 bytes as in
AES-GCM and ChaCha20-Poly1305. -/
def TAG_SIZE : Nat := 16

/-- Modelled from the spec: the 16-byte authentication tag, a deterministic
function of key, nonce, associated data and encrypted body (§3: "Ciphertext
= encrypted body concatenated with a fixed-size authentication tag"; §4.4:
the tag authenticates the associated data without encrypting it). -/
def modelTag (key nonce aad body : List Nat) : List Nat :=
  (List.range TAG_SIZE).map (fun i =>
    (aad.foldl (fun acc b => acc * 257 + b) 3 +
     body.foldl (fun acc b => acc * 257 + b) 5 +
     modelKeystream key nonce i + i) % 256)

/-- Modelled from the spec: the family of cipher variants conforming to
`CryptoCipherTrait` (§4.4 — no concrete cipher engine is present under
`src/`, only the trait). A variant is fixed by its `KEY_SIZE` and
`NONCE_SIZE`; keys and nonces are length-validated byte sequences;
encryption is the keystream XOR with the model tag appended; decryption
rejects ciphertext shorter than the tag with `InvalidLength`, recomputes
the tag over the received body and associated data, fails with
`AuthenticationFailed` on mismatch and otherwise returns the XOR-decrypted
body. -/
def modelCipher (ks ns : Nat) : CryptoCipherTrait where
  Key := { l : List Nat // l.length = ks }
  Nonce := { l : List Nat // l.length = ns }
  KEY_SIZE := ks
  NONCE_SIZE := ns
  get_key_from_u8_array := fun l =>
    if h : l.length = ks then .ok ⟨l, h⟩ else .error .InvalidLength
  get_nonce_from_u8_array := fun l =>
    if h : l.length = ns then .ok ⟨l, h⟩ else .error .InvalidLength
  encrypt := fun k n pt aad =>
    let body := xorKeystream k.val n.val 0 pt
    .ok (body ++ modelTag k.val n.val aad body)
  decrypt := fun k n ct aad =>
    if ct.length < TAG_SIZE then .error .InvalidLength
    else
      let body := ct.take (ct.length - TAG_SIZE)
      let tag := ct.drop (ct.length - TAG_SIZE)
      if tag = modelTag k.val n.val aad body then
        .ok (xorKeystream k.val n.val 0 body)
      else .error .AuthenticationFailed

/-- The `MockEncoder` of the `src/utils/encoding.rs` tests in its
`input_too_large` configuration: encoding fails with `InvalidLength`. -/
def mockEncoderTooLarge : Encoder NimbusError :=
  { encode := fun _ => .error .InvalidLength
    decode := fun _ => .ok [116, 101, 115, 116]
    max_input_size := USIZE_MAX }

/-- The `MockEncoder` of the `src/utils/encoding.rs` tests in its
`decode_failure` configuration: decoding fails with `InvalidInput`. -/
def mockEncoderDecodeFailure : Encoder NimbusError :=
  { encode := fun _ => .ok "test"
    decode := fun _ => .error .InvalidInput
    max_input_size := USIZE_MAX }

end Nimbus

namespace Nimbus

theorem b64_char_roundtrip_fin :
    ∀ v : Fin 64, b64CharValue (b64AlphabetChar v.val) = some v.val := by
  decide

theorem b64_alphabet_ne_pad_fin :
    ∀ v : Fin 64, b64AlphabetChar v.val ≠ '=' := by
  decide

theorem b64CharValue_alphabet {v : Nat} (h : v < 64) :
    b64CharValue (b64AlphabetChar v) = some v :=
  b64_char_roundtrip_fin ⟨v, h⟩

theorem b64AlphabetChar_ne_pad {v : Nat} (h : v < 64) :
    b64AlphabetChar v ≠ '=' :=
  b64_alphabet_ne_pad_fin ⟨v, h⟩

theorem encodeGroups_ne_nil {b : List Nat} (h : b ≠ []) :
    encodeGroups b ≠ [] := by
  match b with
  | [] => exact absurd rfl h
  | [a] => simp [encodeGroups]
  | [a, c] => simp [encodeGroups]
  | a :: c :: d :: rest => simp [encodeGroups]

theorem decodeGroups_encodeGroups :
    ∀ b : List Nat, (∀ x ∈ b, x < 256) →
      decodeGroups (encodeGroups b) = some b := by
  intro b
  induction b using encodeGroups.induct with
  | case1 =>
      intro _
      rfl
  | case2 a =>
      intro hb
      have ha : a < 256 := hb a (by simp)
      have h1 : a / 4 < 64 := by omega
      have h2 : a % 4 * 16 < 64 := by omega
      simp [encodeGroups, decodeGroups, decodeLastGroup,
        b64CharValue_alphabet h1, b64CharValue_alphabet h2,
        Nat.mul_mod_left]
      omega
  | case3 a c =>
      intro hb
      have ha : a < 256 := hb a (by simp)
      have hc : c < 256 := hb c (by simp)
      have h1 : a / 4 < 64 := by omega
      have h2 : a % 4 * 16 + c / 16 < 64 := by omega
      have h3 : c % 16 * 4 < 64 := by omega
      simp [encodeGroups, decodeGroups, decodeLastGroup,
        b64CharValue_alphabet h1, b64CharValue_alphabet h2,
        b64CharValue_alphabet h3, b64AlphabetChar_ne_pad h3,
        Nat.mul_mod_left]
      omega
  | case4 a c d rest ih =>
      intro hb
      have ha : a < 256 := hb a (by simp)
      have hc : c < 256 := hb c (by simp)
      have hd : d < 256 := hb d (by simp)
      have h1 : a / 4 < 64 := by omega
      have h2 : a % 4 * 16 + c / 16 < 64 := by omega
      have h3 : c % 16 * 4 + d / 64 < 64 := by omega
      have h4 : d % 64 < 64 := by omega
      by_cases hrest : rest = []
      · subst hrest
        simp [encodeGroups, decodeGroups, decodeLastGroup,
          b64CharValue_alphabet h1, b64CharValue_alphabet h2,
          b64CharValue_alphabet h3, b64CharValue_alphabet h4,
          b64AlphabetChar_ne_pad h3, b64AlphabetChar_ne_pad h4]
        omega
      · have hne := encodeGroups_ne_nil hrest
        have hrec : decodeGroups (encodeGroups rest) = some rest :=
          ih (fun x hx => hb x (by simp [hx]))
        simp [encodeGroups, decodeGroups, hne,
          b64CharValue_alphabet h1, b64CharValue_alphabet h2,
          b64CharValue_alphabet h3, b64CharValue_alphabet h4, hrec]
        refine ⟨by omega, by omega, by omega⟩

theorem encodeGroups_length :
    ∀ b : List Nat, (encodeGroups b).length = base64_encoded_len b.length := by
  intro b
  induction b using encodeGroups.induct with
  | case1 => simp [encodeGroups, base64_encoded_len]
  | case2 a => simp [encodeGroups, base64_encoded_len]
  | case3 a c => simp [encodeGroups, base64_encoded_len]
  | case4 a c d rest ih =>
      simp [encodeGroups, base64_encoded_len] at ih ⊢
      omega

theorem decodeLastGroup_bad {c1 c2 c3 c4 : Char}
    (h : (b64CharValue c1 = none ∧ c1 ≠ '=') ∨
         (b64CharValue c2 = none ∧ c2 ≠ '=') ∨
         (b64CharValue c3 = none ∧ c3 ≠ '=') ∨
         (b64CharValue c4 = none ∧ c4 ≠ '=')) :
    decodeLastGroup c1 c2 c3 c4 = none := by
  unfold decodeLastGroup
  cases hc1 : b64CharValue c1 with
  | none => rfl
  | some v1 =>
    cases hc2 : b64CharValue c2 with
    | none => rfl
    | some v2 =>
      simp only [hc1, hc2] at h
      have h34 : (b64CharValue c3 = none ∧ c3 ≠ '=') ∨
          (b64CharValue c4 = none ∧ c4 ≠ '=') := by
        rcases h with ⟨h0, _⟩ | ⟨h0, _⟩ | h | h
        · exact absurd h0 (by simp)
        · exact absurd h0 (by simp)
        · exact Or.inl h
        · exact Or.inr h
      by_cases h3 : c3 = '='
      · subst h3
        have h4 : b64CharValue c4 = none ∧ c4 ≠ '=' := by
          rcases h34 with ⟨_, hne⟩ | h4
          · exact absurd rfl hne
          · exact h4
        simp [h4.2]
      · simp only [if_neg h3]
        cases hc3 : b64CharValue c3 with
        | none => rfl
        | some v3 =>
          have h4 : b64CharValue c4 = none ∧ c4 ≠ '=' := by
            rcases h34 with ⟨h0, _⟩ | h4
            · exact absurd h0 (by simp [hc3])
            · exact h4
          simp [h4.1, h4.2]

theorem decodeGroups_middle_rec_none {c1 c2 c3 c4 : Char}
    {rest : List Char} {v1 v2 v3 v4 : Nat} (hrest : ¬rest = [])
    (hv1 : b64CharValue c1 = some v1) (hv2 : b64CharValue c2 = some v2)
    (hv3 : b64CharValue c3 = some v3) (hv4 : b64CharValue c4 = some v4)
    (hnone : decodeGroups rest = none) :
    decodeGroups (c1 :: c2 :: c3 :: c4 :: rest) = none := by
  simp [decodeGroups, hrest, hv1, hv2, hv3, hv4, hnone]

theorem decodeGroups_middle_bad {c1 c2 c3 c4 : Char} {rest : List Char}
    (hrest : ¬rest = [])
    (hbad : ∀ v1 v2 v3 v4 : Nat, b64CharValue c1 = some v1 →
      b64CharValue c2 = some v2 → b64CharValue c3 = some v3 →
      b64CharValue c4 = some v4 → False) :
    decodeGroups (c1 :: c2 :: c3 :: c4 :: rest) = none := by
  cases hc1 : b64CharValue c1 with
  | none => simp [decodeGroups, hrest, hc1]
  | some v1 =>
    cases hc2 : b64CharValue c2 with
    | none => simp [decodeGroups, hrest, hc1, hc2]
    | some v2 =>
      cases hc3 : b64CharValue c3 with
      | none => simp [decodeGroups, hrest, hc1, hc2, hc3]
      | some v3 =>
        cases hc4 : b64CharValue c4 with
        | none => simp [decodeGroups, hrest, hc1, hc2, hc3, hc4]
        | some v4 => exact (hbad v1 v2 v3 v4 hc1 hc2 hc3 hc4).elim

theorem decodeGroups_leftover {t : List Char} (h1 : t = [] → False)
    (h2 : ∀ (c1 c2 c3 c4 : Char) (rest : List Char),
      t = c1 :: c2 :: c3 :: c4 :: rest → False) :
    decodeGroups t = none := by
  cases t with
  | nil => exact (h1 rfl).elim
  | cons a t2 =>
    cases t2 with
    | nil => rfl
    | cons b t3 =>
      cases t3 with
      | nil => rfl
      | cons c t4 =>
        cases t4 with
        | nil => rfl
        | cons d t5 => exact (h2 a b c d t5 rfl).elim

theorem decodeGroups_bad_length :
    ∀ s : List Char, s.length % 4 ≠ 0 → decodeGroups s = none := by
  intro s
  induction s using decodeGroups.induct with
  | case1 =>
      intro h
      simp at h
  | case2 c1 c2 c3 c4 =>
      intro h
      simp at h
  | case3 c1 c2 c3 c4 rest hrest v1 v2 v3 v4 hv4 hv3 hv2 hv1 bs hbs ih =>
      intro h
      have hlen : rest.length % 4 ≠ 0 := by
        simp only [List.length_cons] at h
        omega
      exact absurd hbs (by simp [ih hlen])
  | case4 c1 c2 c3 c4 rest hrest v1 v2 v3 v4 hv4 hv3 hv2 hv1 hnone ih =>
      intro h
      exact decodeGroups_middle_rec_none hrest hv1 hv2 hv3 hv4 hnone
  | case5 c1 c2 c3 c4 rest hrest hbad =>
      intro h
      exact decodeGroups_middle_bad hrest hbad
  | case6 t h1 h2 =>
      intro h
      exact decodeGroups_leftover h1 h2

theorem decodeGroups_bad_char :
    ∀ s : List Char, (∃ c ∈ s, b64CharValue c = none ∧ c ≠ '=') →
      decodeGroups s = none := by
  intro s
  induction s using decodeGroups.induct with
  | case1 =>
      rintro ⟨c, hc, _⟩
      simp at hc
  | case2 c1 c2 c3 c4 =>
      rintro ⟨c, hc, hval, hne⟩
      have hlast : decodeLastGroup c1 c2 c3 c4 = none := by
        apply decodeLastGroup_bad
        simp only [List.mem_cons, List.not_mem_nil, or_false] at hc
        rcases hc with rfl | rfl | rfl | rfl
        · exact Or.inl ⟨hval, hne⟩
        · exact Or.inr (Or.inl ⟨hval, hne⟩)
        · exact Or.inr (Or.inr (Or.inl ⟨hval, hne⟩))
        · exact Or.inr (Or.inr (Or.inr ⟨hval, hne⟩))
      simp [decodeGroups, hlast]
  | case3 c1 c2 c3 c4 rest hrest v1 v2 v3 v4 hv4 hv3 hv2 hv1 bs hbs ih =>
      rintro ⟨c, hc, hval, hne⟩
      simp only [List.mem_cons] at hc
      rcases hc with rfl | rfl | rfl | rfl | hcrest
      · exact absurd hval (by simp [hv1])
      · exact absurd hval (by simp [hv2])
      · exact absurd hval (by simp [hv3])
      · exact absurd hval (by simp [hv4])
      · exact absurd hbs (by simp [ih ⟨c, hcrest, hval, hne⟩])
  | case4 c1 c2 c3 c4 rest hrest v1 v2 v3 v4 hv4 hv3 hv2 hv1 hnone ih =>
      intro h
      exact decodeGroups_middle_rec_none hrest hv1 hv2 hv3 hv4 hnone
  | case5 c1 c2 c3 c4 rest hrest hbad =>
      intro h
      exact decodeGroups_middle_bad hrest hbad
  | case6 t h1 h2 =>
      intro h
      exact decodeGroups_leftover h1 h2

theorem xorKeystream_length (key nonce : List Nat) :
    ∀ (i : Nat) (l : List Nat),
      (xorKeystream key nonce i l).length = l.length := by
  intro i l
  induction l generalizing i with
  | nil => rfl
  | cons b rest ih => simp [xorKeystream, ih]

theorem xorKeystream_involutive (key nonce : List Nat) :
    ∀ (i : Nat) (l : List Nat),
      xorKeystream key nonce i (xorKeystream key nonce i l) = l := by
  intro i l
  induction l generalizing i with
  | nil => rfl
  | cons b rest ih => simp [xorKeystream, ih, Nat.xor_cancel_right]

theorem modelTag_length (key nonce aad body : List Nat) :
    (modelTag key nonce aad body).length = TAG_SIZE := by
  simp [modelTag]

end Nimbus

namespace Nimbus

/-- C1 counterexample: the code's error type has an inhabitant,
`WebAssemblyError`, that is none of the seven kinds named by the
specification. -/
theorem C1_counterexample :
    specSevenErrorKinds.contains NimbusError.WebAssemblyError = false := by
  decide

/-- C1 (amended): the error taxonomy is a closed set of exactly eight
kinds — the specification's seven plus `WebAssemblyError` — and every
error value is one of them. -/
theorem C1_taxonomy_closed_eight :
    (∀ e : NimbusError, e ∈ nimbusErrorKinds) ∧
    nimbusErrorKinds.length = 8 ∧ nimbusErrorKinds.Nodup := by
  refine ⟨fun e => ?_, rfl, by decide⟩
  cases e <;> simp [nimbusErrorKinds]

/-- C2: where the oversized-input guard fires, the public `encode_base64`
returns `InvalidInput` — not the `InvalidLength` stated by the claim and by
the function's own doc comment; `InvalidLength` is produced only at the
inner `Encoder::encode` level and is remapped by `encode_with`. Within the
guard the public function succeeds. -/
theorem C2_encode_length_guard (data : List Nat) :
    (encode_base64 data = .error .InvalidInput ↔
      data.length > BASE64_MAX_INPUT_SIZE) ∧
    (Base64.encode data = .error .InvalidLength ↔
      data.length > BASE64_MAX_INPUT_SIZE) ∧
    (data.length ≤ BASE64_MAX_INPUT_SIZE ↔
      encode_base64 data = .ok (Base64.encode_string data)) := by
  by_cases h : data.length > BASE64_MAX_INPUT_SIZE
  · simp [encode_base64, encode_with, base64Encoder, Base64.encode,
      Base64.max_input_size, h]
  · simp [encode_base64, encode_with, base64Encoder, Base64.encode,
      Base64.max_input_size, h]
    omega

end Nimbus

namespace Nimbus

/-- C3: for every byte sequence within the size guard, decoding the
encoding returns the original bytes, and the empty sequence encodes to the
empty string. -/
theorem C3_base64_roundtrip :
    (∀ b : List Nat, (∀ x ∈ b, x < 256) →
      b.length ≤ BASE64_MAX_INPUT_SIZE →
      ∃ s, encode_base64 b = .ok s ∧ decode_base64 s = .ok b) ∧
    encode_base64 [] = .ok "" := by
  refine ⟨fun b hb hlen => ⟨Base64.encode_string b, ?_, ?_⟩, rfl⟩
  · simp [encode_base64, encode_with, base64Encoder, Base64.encode,
      Base64.max_input_size, Nat.not_lt.mpr hlen]
  · simp [decode_base64, decode_with, base64Encoder, Base64.decode,
      Base64.decode_vec, Base64.encode_string,
      decodeGroups_encodeGroups b hb]

/-- C3 witness: the round trip at the concrete bytes of
`"Hello, World!"`. -/
theorem C3_base64_roundtrip_witness :
    (∀ x ∈ helloWorldBytes, x < 256) ∧
    helloWorldBytes.length ≤ BASE64_MAX_INPUT_SIZE ∧
    ∃ s, encode_base64 helloWorldBytes = .ok s ∧
      decode_base64 s = .ok helloWorldBytes :=
  ⟨by decide, by decide,
   C3_base64_roundtrip.1 helloWorldBytes (by decide) (by decide)⟩

/-- C4: whenever the public `decode_base64` fails the error is exactly
`InvalidInput`; it fails on every string containing a character outside
the base64 alphabet, on every string whose length is not a whole number
of four-character groups (invalid padding length), and on misplaced or
non-canonical `=` padding; the empty string decodes to the empty byte
sequence. -/
theorem C4_decode_invalid_input :
    (∀ (s : String) (e : NimbusError),
      decode_base64 s = .error e → e = .InvalidInput) ∧
    (∀ s : String, (∃ c ∈ s.data, b64CharValue c = none ∧ c ≠ '=') →
      decode_base64 s = .error .InvalidInput) ∧
    (∀ s : String, s.data.length % 4 ≠ 0 →
      decode_base64 s = .error .InvalidInput) ∧
    decode_base64 "=AAA" = .error .InvalidInput ∧
    decode_base64 "AB=A" = .error .InvalidInput ∧
    decode_base64 "SGVsbG9=" = .error .InvalidInput ∧
    decode_base64 "" = .ok [] := by
  refine ⟨fun s e h => ?_, fun s hs => ?_, fun s hs => ?_, rfl, rfl, rfl, rfl⟩
  · revert h
    simp only [decode_base64, decode_with, base64Encoder, Base64.decode]
    cases Base64.decode_vec s with
    | some v => intro h; cases h
    | none => intro h; cases h; rfl
  · simp [decode_base64, decode_with, base64Encoder, Base64.decode,
      Base64.decode_vec, decodeGroups_bad_char s.data hs]
  · simp [decode_base64, decode_with, base64Encoder, Base64.decode,
      Base64.decode_vec, decodeGroups_bad_length s.data hs]

/-- C4 witness: the specification's rejection vector
`"Invalid Base64!@#$%"` (contains characters off the alphabet) and a
string of invalid padding length. -/
theorem C4_decode_invalid_input_witness :
    decode_base64 "Invalid Base64!@#$%" = .error .InvalidInput ∧
    decode_base64 "AAA" = .error .InvalidInput :=
  ⟨C4_decode_invalid_input.2.1 "Invalid Base64!@#$%" (by decide),
   C4_decode_invalid_input.2.2.1 "AAA" (by decide)⟩

end Nimbus

namespace Nimbus

/-- C5: for every variant of the model cipher family conforming to
`CryptoCipherTrait` — any key size, any nonce size — and all valid keys,
nonces, plaintexts and associated data, decryption of an encryption with
the same key, nonce and associated data returns exactly the original
plaintext. -/
theorem C5_cipher_roundtrip (ks ns : Nat) (key : (modelCipher ks ns).Key)
    (nonce : (modelCipher ks ns).Nonce) (pt aad : List Nat) :
    ∃ ct, (modelCipher ks ns).encrypt key nonce pt aad = .ok ct ∧
      (modelCipher ks ns).decrypt key nonce ct aad = .ok pt := by
  refine ⟨xorKeystream key.val nonce.val 0 pt ++
    modelTag key.val nonce.val aad (xorKeystream key.val nonce.val 0 pt),
    rfl, ?_⟩
  have hblen : (xorKeystream key.val nonce.val 0 pt).length = pt.length :=
    xorKeystream_length key.val nonce.val 0 pt
  have htlen : (modelTag key.val nonce.val aad
      (xorKeystream key.val nonce.val 0 pt)).length = TAG_SIZE :=
    modelTag_length key.val nonce.val aad _
  have hlen : (xorKeystream key.val nonce.val 0 pt ++
      modelTag key.val nonce.val aad
        (xorKeystream key.val nonce.val 0 pt)).length =
      pt.length + TAG_SIZE := by
    simp [hblen, htlen]
  show (if _ < TAG_SIZE then _ else _) = _
  rw [if_neg (by omega)]
  have hsub : (xorKeystream key.val nonce.val 0 pt ++
      modelTag key.val nonce.val aad
        (xorKeystream key.val nonce.val 0 pt)).length - TAG_SIZE =
      (xorKeystream key.val nonce.val 0 pt).length := by omega
  rw [hsub, List.take_left, List.drop_left, if_pos rfl,
    xorKeystream_involutive]

end Nimbus

namespace Nimbus

/-- C6: the base64 output length is `4 * ceil(n / 3)` characters for `n`
input bytes, and for every `n` at most `BASE64_MAX_INPUT_SIZE` that value
is representable in the platform size type (at most `usize::MAX`). -/
theorem C6_length_guard_no_overflow :
    (∀ b : List Nat,
      (Base64.encode_string b).length = base64_encoded_len b.length) ∧
    (∀ n : Nat, n ≤ BASE64_MAX_INPUT_SIZE →
      base64_encoded_len n ≤ USIZE_MAX) := by
  constructor
  · intro b
    simpa [Base64.encode_string, String.length] using encodeGroups_length b
  · intro n h
    have hmax : BASE64_MAX_INPUT_SIZE = 4611686018427387903 := rfl
    have husize : USIZE_MAX = 18446744073709551615 := rfl
    unfold base64_encoded_len
    omega

/-- C6 witness: the bound applied at a concrete length. -/
theorem C6_length_guard_no_overflow_witness :
    (Base64.encode_string helloWorldBytes).length =
      base64_encoded_len helloWorldBytes.length ∧
    13 ≤ BASE64_MAX_INPUT_SIZE ∧ base64_encoded_len 13 ≤ USIZE_MAX :=
  ⟨C6_length_guard_no_overflow.1 helloWorldBytes, by decide,
   C6_length_guard_no_overflow.2 13 (by decide)⟩

/-- C7: on success `generate_aes_gcm_nonce` returns exactly 12 bytes and
`generate_extended_nonce` exactly 24 bytes, for every random source and
state; on failure each returns `RandomGenerationFailed`. -/
theorem C7_nonce_helper_sizes {σ ε : Type} (R : SecureRandomSource σ ε)
    (s : σ) :
    (∀ v s₂, generate_aes_gcm_nonce R s = .ok (v, s₂) → v.length = 12) ∧
    (∀ e, generate_aes_gcm_nonce R s = .error e →
      e = .RandomGenerationFailed) ∧
    (∀ v s₂, generate_extended_nonce R s = .ok (v, s₂) → v.length = 24) ∧
    (∀ e, generate_extended_nonce R s = .error e →
      e = .RandomGenerationFailed) := by
  refine ⟨?_, ?_, ?_, ?_⟩ <;>
    simp only [generate_aes_gcm_nonce, generate_extended_nonce,
      generate_nonce, secure_random_bytes, NONCE_96_BIT_SIZE,
      NONCE_192_BIT_SIZE]
  · intro v s₂
    cases hf : R.try_fill_bytes s (List.replicate 12 0) with
    | ok p =>
        intro h
        cases h
        have := R.fill_preserves_length s _ p.1 p.2 (by rw [hf])
        simpa using this
    | error e => intro h; cases h
  · intro e
    cases hf : R.try_fill_bytes s (List.replicate 12 0) with
    | ok p => intro h; cases h
    | error e₂ => intro h; cases h; rfl
  · intro v s₂
    cases hf : R.try_fill_bytes s (List.replicate 24 0) with
    | ok p =>
        intro h
        cases h
        have := R.fill_preserves_length s _ p.1 p.2 (by rw [hf])
        simpa using this
    | error e => intro h; cases h
  · intro e
    cases hf : R.try_fill_bytes s (List.replicate 24 0) with
    | ok p => intro h; cases h
    | error e₂ => intro h; cases h; rfl

/-- C7 witness: the helpers applied to the mock sources of the test
suite — the success mock yields 12- and 24-byte nonces, the failure mock
yields `RandomGenerationFailed`. -/
theorem C7_nonce_helper_sizes_witness :
    (List.replicate 12 (0 : Nat)).length = 12 ∧
    (List.replicate 24 (0 : Nat)).length = 24 ∧
    NimbusError.RandomGenerationFailed = .RandomGenerationFailed :=
  ⟨(C7_nonce_helper_sizes mockRandomSuccess ()).1 _ () rfl,
   (C7_nonce_helper_sizes mockRandomSuccess ()).2.2.1 _ () rfl,
   (C7_nonce_helper_sizes mockRandomFailure ()).2.1 _ rfl⟩

end Nimbus

namespace Nimbus

/-- C8: for every random source, `secure_random_bytes` and
`secure_random_u64` succeed exactly when the underlying source call
succeeds — returning its output unchanged, never a substituted fallback —
and surface every source failure as exactly `RandomGenerationFailed`. -/
theorem C8_random_failure_surfaced {σ ε : Type} (R : SecureRandomSource σ ε)
    (s : σ) (n : Nat) :
    (∀ out s₂, R.try_fill_bytes s (List.replicate n 0) = .ok (out, s₂) →
      secure_random_bytes R s n = .ok (out, s₂)) ∧
    (∀ e, R.try_fill_bytes s (List.replicate n 0) = .error e →
      secure_random_bytes R s n = .error .RandomGenerationFailed) ∧
    (∀ e, secure_random_bytes R s n = .error e →
      e = .RandomGenerationFailed) ∧
    (∀ v s₂, R.try_next_u64 s = .ok (v, s₂) →
      secure_random_u64 R s = .ok (v, s₂)) ∧
    (∀ e, R.try_next_u64 s = .error e →
      secure_random_u64 R s = .error .RandomGenerationFailed) ∧
    (∀ e, secure_random_u64 R s = .error e →
      e = .RandomGenerationFailed) := by
  refine ⟨fun out s₂ h => ?_, fun e h => ?_, ?_, fun v s₂ h => ?_,
    fun e h => ?_, ?_⟩
  · simp [secure_random_bytes, h]
  · simp [secure_random_bytes, h]
  · simp only [secure_random_bytes]
    cases R.try_fill_bytes s (List.replicate n 0) with
    | ok p => intro e h; cases h
    | error e₂ => intro e h; cases h; rfl
  · simp [secure_random_u64, h]
  · simp [secure_random_u64, h]
  · simp only [secure_random_u64]
    cases R.try_next_u64 s with
    | ok p => intro e h; cases h
    | error e₂ => intro e h; cases h; rfl

/-- C8 witness: the wrappers applied to the mock sources of the test
suite, success and failure sides. -/
theorem C8_random_failure_surfaced_witness :
    secure_random_bytes mockRandomSuccess () 12 =
      .ok (List.replicate 12 0, ()) ∧
    secure_random_bytes mockRandomFailure () 12 =
      .error .RandomGenerationFailed ∧
    secure_random_u64 mockRandomSuccess () = .ok (42, ()) ∧
    secure_random_u64 mockRandomFailure () =
      .error .RandomGenerationFailed :=
  ⟨(C8_random_failure_surfaced mockRandomSuccess () 12).1 _ () rfl,
   (C8_random_failure_surfaced mockRandomFailure () 12).2.1 () rfl,
   (C8_random_failure_surfaced mockRandomSuccess () 12).2.2.2.1 42 () rfl,
   (C8_random_failure_surfaced mockRandomFailure () 12).2.2.2.2.1 () rfl⟩

/-- C9: the concrete test vector — encoding the bytes of
`"Hello, World!"` yields `"SGVsbG8sIFdvcmxkIQ=="` and decoding that string
yields the original bytes. -/
theorem C9_hello_world_vector :
    encode_base64 helloWorldBytes = .ok "SGVsbG8sIFdvcmxkIQ==" ∧
    decode_base64 "SGVsbG8sIFdvcmxkIQ==" = .ok helloWorldBytes :=
  ⟨rfl, rfl⟩

/-- C10: the generic wrappers `encode_with` and `decode_with` remap every
underlying encoder error to `InvalidInput` and pass successes through
unchanged, so `InvalidInput` is the only error kind the public
`encode_base64` and `decode_base64` ever return. -/
theorem C10_wrappers_remap_invalid_input {ε : Type} (E : Encoder ε)
    (data : List Nat) (s : String) :
    (∀ e, encode_with E data = .error e → e = .InvalidInput) ∧
    (∀ t, encode_with E data = .ok t ↔ E.encode data = .ok t) ∧
    (∀ e, decode_with E s = .error e → e = .InvalidInput) ∧
    (∀ v, decode_with E s = .ok v ↔ E.decode s = .ok v) ∧
    (∀ e, encode_base64 data = .error e → e = .InvalidInput) ∧
    (∀ e, decode_base64 s = .error e → e = .InvalidInput) := by
  refine ⟨?_, fun t => ?_, ?_, fun v => ?_, ?_, ?_⟩
  · simp only [encode_with]
    cases E.encode data with
    | ok t => intro e h; cases h
    | error e₂ => intro e h; cases h; rfl
  · simp only [encode_with]
    cases E.encode data with
    | ok t₂ => simp
    | error e₂ => simp
  · simp only [decode_with]
    cases E.decode s with
    | ok v₂ => intro e h; cases h
    | error e₂ => intro e h; cases h; rfl
  · simp only [decode_with]
    cases E.decode s with
    | ok v₂ => simp
    | error e₂ => simp
  · simp only [encode_base64, encode_with]
    cases base64Encoder.encode data with
    | ok t => intro e h; cases h
    | error e₂ => intro e h; cases h; rfl
  · simp only [decode_base64, decode_with]
    cases base64Encoder.decode s with
    | ok v₂ => intro e h; cases h
    | error e₂ => intro e h; cases h; rfl

/-- C10 witness: the wrappers applied to the mock encoders of the test
suite — in particular an underlying `InvalidLength` (the oversized-input
kind) comes out as `InvalidInput`. -/
theorem C10_wrappers_remap_invalid_input_witness :
    encode_with mockEncoderTooLarge [] = .error .InvalidInput ∧
    NimbusError.InvalidInput = .InvalidInput ∧
    NimbusError.InvalidInput = .InvalidInput :=
  ⟨rfl,
   (C10_wrappers_remap_invalid_input mockEncoderTooLarge [] "").1 _ rfl,
   (C10_wrappers_remap_invalid_input mockEncoderDecodeFailure [] "").2.2.1
     _ rfl⟩

end Nimbus
